import Mathlib

/-!
Verification of libgcrypt's `mpi/generic/mpih-mul1.c` (the single-limb
multiply kernel `_gcry_mpih_mul_1`) and of the ML-KEM known-answer-test
harness `t-mlkem.c` that is bundled in the same source file.

Limbs are machine words of width `w`; we embed them as natural numbers
taken modulo `B = 2 ^ w` at every operation that the C code performs on
`mpi_limb_t` values.  Memory is embedded as a total function from
addresses (naturals) to stored values; pointers are base addresses.
-/

/-! ## The limb kernel: `_gcry_mpih_mul_1` -/

/-- Base-`B` value of a limb sequence, least-significant limb first
(index 0 is the least significant limb, as in `mpi_ptr_t` buffers). -/
def limbValue (B : Nat) : List Nat → Nat
  | [] => 0
  | l :: ls => l + B * limbValue B ls

/-- Snapshot of `n` limbs of memory starting at base address `p`. -/
def readLimbs (mem : Nat → Nat) (p : Nat) : Nat → List Nat
  | 0 => []
  | Nat.succ k => mem p :: readLimbs mem (p + 1) k

/-- One pass of the loop body of `_gcry_mpih_mul_1` over a limb list,
carrying `cy` (the C variable `cy_limb`) forward.  Each iteration is the
literal body:
`umul_ppmm(prod_high, prod_low, s, v)` gives `prod_high = s*v / B` and
`prod_low = s*v % B`; then
`add_ssaaaa(cy_limb, prod_low, prod_high, prod_low, 0, cy_limb)` gives
the new low word `(prod_low + cy) % B` and the new carry
`(prod_high + 0 + (prod_low + cy) / B) % B`.  Returns the stored low
limbs (least significant first) and the final carry. -/
def mul1_list (B v : Nat) : List Nat → Nat → List Nat × Nat
  | [], cy => ([], cy)
  | s :: rest, cy =>
      let prod_high := s * v / B
      let prod_low := s * v % B
      let low := (prod_low + cy) % B
      let cy2 := (prod_high + 0 + (prod_low + cy) / B) % B
      let r := mul1_list B v rest cy2
      (low :: r.1, r.2)

/-- The loop of `_gcry_mpih_mul_1` over memory.  The C code walks a
signed index `j` from `-s1_size` to `-1` over pointers offset by
`s1_size`; that addresses exactly the offsets `0, 1, ..., s1_size-1`
from the original `res_ptr`/`s1_ptr`, least significant first, which is
how we count here: `k` is the number of iterations remaining and `j`
the current offset.  Each iteration reads `s1_ptr[j]` from the current
memory, runs the body described at `mul1_list`, and stores the low word
to `res_ptr[j]`.  The third component counts executed loop bodies.
The embedding is used under the documented precondition `s1_size >= 1`
(for `s1_size = 0` the C do-while misbehaves; the spec calls `n = 0`
an invalid input). -/
def mul1_go (B v res s1 : Nat) : Nat → Nat → Nat → (Nat → Nat) → (Nat → Nat) × Nat × Nat
  | 0, _, cy, mem => (mem, cy, 0)
  | Nat.succ k, j, cy, mem =>
      let s := mem (s1 + j)
      let prod_high := s * v / B
      let prod_low := s * v % B
      let low := (prod_low + cy) % B
      let cy2 := (prod_high + 0 + (prod_low + cy) / B) % B
      let r := mul1_go B v res s1 k (j + 1) cy2 (fun a => if a = res + j then low else mem a)
      (r.1, r.2.1, r.2.2 + 1)

/-- `_gcry_mpih_mul_1(res_ptr, s1_ptr, s1_size, s2_limb)`: multiply the
`s1_size` limbs at `s1_ptr` by the limb `s2_limb`, store the low limbs
at `res_ptr` and return the carry (`cy_limb`, initialised to 0).
Returns the post-call memory together with the returned carry. -/
def _gcry_mpih_mul_1 (B : Nat) (mem : Nat → Nat) (res_ptr s1_ptr s1_size s2_limb : Nat) :
    (Nat → Nat) × Nat :=
  let r := mul1_go B s2_limb res_ptr s1_ptr s1_size 0 0 mem
  (r.1, r.2.1)

theorem mul1_list_cons (B v s cy : Nat) (rest : List Nat) :
    mul1_list B v (s :: rest) cy =
      ((s * v % B + cy) % B ::
         (mul1_list B v rest ((s * v / B + 0 + (s * v % B + cy) / B) % B)).1,
       (mul1_list B v rest ((s * v / B + 0 + (s * v % B + cy) / B) % B)).2) := rfl

theorem mul1_go_succ (B v res s1 k j cy : Nat) (mem : Nat → Nat) :
    mul1_go B v res s1 (k + 1) j cy mem =
      ((mul1_go B v res s1 k (j + 1)
          ((mem (s1 + j) * v / B + 0 + (mem (s1 + j) * v % B + cy) / B) % B)
          (fun a => if a = res + j then (mem (s1 + j) * v % B + cy) % B else mem a)).1,
       (mul1_go B v res s1 k (j + 1)
          ((mem (s1 + j) * v / B + 0 + (mem (s1 + j) * v % B + cy) / B) % B)
          (fun a => if a = res + j then (mem (s1 + j) * v % B + cy) % B else mem a)).2.1,
       (mul1_go B v res s1 k (j + 1)
          ((mem (s1 + j) * v / B + 0 + (mem (s1 + j) * v % B + cy) / B) % B)
          (fun a => if a = res + j then (mem (s1 + j) * v % B + cy) % B else mem a)).2.2 + 1) := rfl

/-- The double-limb step invariant: the stored low word plus `B` times
the outgoing carry reconstructs `s * v + cy` exactly, and the outgoing
carry is again a limb. -/
theorem mul1_step_value (B s v cy : Nat) (hB : 1 < B) (hs : s < B) (hv : v < B)
    (hcy : cy < B) :
    (s * v % B + cy) % B + B * ((s * v / B + 0 + (s * v % B + cy) / B) % B) = s * v + cy
      ∧ (s * v / B + 0 + (s * v % B + cy) / B) % B < B := by
  have hB0 : 0 < B := by omega
  have hple : s * v ≤ (B - 1) * (B - 1) :=
    Nat.mul_le_mul (by omega) (by omega)
  have hsq : (B - 1) * (B - 1) = 1 + B * (B - 2) := by
    obtain ⟨c, rfl⟩ : ∃ c, B = c + 2 := ⟨B - 2, by omega⟩
    show (c + 1) * (c + 1) = 1 + (c + 2) * c
    ring
  have hdivle : s * v / B ≤ B - 2 := by
    have h1 : s * v / B ≤ ((B - 1) * (B - 1)) / B := Nat.div_le_div_right hple
    have h2 : ((B - 1) * (B - 1)) / B = B - 2 := by
      rw [hsq, Nat.add_mul_div_left _ _ hB0, Nat.div_eq_of_lt hB]
      omega
    omega
  have hcarrylt : (s * v % B + cy) / B < 2 := by
    have : s * v % B + cy < B * 2 := by
      have := Nat.mod_lt (s * v) hB0
      omega
    exact Nat.div_lt_of_lt_mul this
  have hinner : s * v / B + 0 + (s * v % B + cy) / B < B := by omega
  refine ⟨?_, by rw [Nat.mod_eq_of_lt hinner]; omega⟩
  rw [Nat.mod_eq_of_lt hinner]
  have hmod1 : s * v % B + B * (s * v / B) = s * v := Nat.mod_add_div _ _
  have hmod2 : (s * v % B + cy) % B + B * ((s * v % B + cy) / B) = s * v % B + cy :=
    Nat.mod_add_div _ _
  calc (s * v % B + cy) % B + B * (s * v / B + 0 + (s * v % B + cy) / B)
      = ((s * v % B + cy) % B + B * ((s * v % B + cy) / B)) + B * (s * v / B) := by ring
    _ = (s * v % B + cy) + B * (s * v / B) := by rw [hmod2]
    _ = (s * v % B + B * (s * v / B)) + cy := by ring
    _ = s * v + cy := by rw [hmod1]

/-- Correctness of the loop over a limb list: the produced limbs and
carry reconstruct `value(S) * v + cy` exactly; moreover the carry and
every stored limb remain single limbs, and the output has the same
length as the input. -/
theorem mul1_list_correct (B v : Nat) (hB : 1 < B) (hv : v < B) :
    ∀ (S : List Nat) (cy : Nat), (∀ s ∈ S, s < B) → cy < B →
      limbValue B (mul1_list B v S cy).1 + (mul1_list B v S cy).2 * B ^ S.length
          = limbValue B S * v + cy
        ∧ (mul1_list B v S cy).2 < B
        ∧ (mul1_list B v S cy).1.length = S.length
        ∧ ∀ x ∈ (mul1_list B v S cy).1, x < B := by
  intro S
  induction S with
  | nil =>
      intro cy _ hcy
      refine ⟨by simp [mul1_list, limbValue], by simpa [mul1_list] using hcy, by simp [mul1_list],
        by simp [mul1_list]⟩
  | cons s rest ih =>
      intro cy hS hcy
      have hs : s < B := hS s (by simp)
      have hrest : ∀ x ∈ rest, x < B := fun x hx => hS x (by simp [hx])
      obtain ⟨hstep, hcy2⟩ := mul1_step_value B s v cy hB hs hv hcy
      obtain ⟨ihval, ihcy, ihlen, ihmem⟩ :=
        ih ((s * v / B + 0 + (s * v % B + cy) / B) % B) hrest hcy2
      rw [mul1_list_cons]
      refine ⟨?_, ihcy, by simpa using ihlen, ?_⟩
      · simp only [limbValue, List.length_cons, pow_succ]
        calc (s * v % B + cy) % B
              + B * limbValue B (mul1_list B v rest ((s * v / B + 0 + (s * v % B + cy) / B) % B)).1
              + (mul1_list B v rest ((s * v / B + 0 + (s * v % B + cy) / B) % B)).2
                  * (B ^ rest.length * B)
            = (s * v % B + cy) % B
              + B * (limbValue B (mul1_list B v rest ((s * v / B + 0 + (s * v % B + cy) / B) % B)).1
                + (mul1_list B v rest ((s * v / B + 0 + (s * v % B + cy) / B) % B)).2
                    * B ^ rest.length) := by ring
          _ = (s * v % B + cy) % B
              + B * (limbValue B rest * v + (s * v / B + 0 + (s * v % B + cy) / B) % B) := by
                rw [ihval]
          _ = ((s * v % B + cy) % B
              + B * ((s * v / B + 0 + (s * v % B + cy) / B) % B)) + B * (limbValue B rest * v) := by
                ring
          _ = (s * v + cy) + B * (limbValue B rest * v) := by rw [hstep]
          _ = (s + B * limbValue B rest) * v + cy := by ring
      · intro x hx
        rcases List.mem_cons.mp hx with h | h
        · subst h; exact Nat.mod_lt _ (by omega)
        · exact ihmem x h

theorem readLimbs_length (mem : Nat → Nat) (p : Nat) : ∀ k, (readLimbs mem p k).length = k := by
  intro k
  induction k generalizing p with
  | zero => simp [readLimbs]
  | succ k ih => simp [readLimbs, ih]

theorem readLimbs_congr (m1 m2 : Nat → Nat) :
    ∀ (k p1 p2 : Nat), (∀ t, t < k → m1 (p1 + t) = m2 (p2 + t)) →
      readLimbs m1 p1 k = readLimbs m2 p2 k := by
  intro k
  induction k with
  | zero => intro p1 p2 _; rfl
  | succ k ih =>
      intro p1 p2 h
      have h0 : m1 p1 = m2 p2 := by simpa using h 0 (by omega)
      have ht : readLimbs m1 (p1 + 1) k = readLimbs m2 (p2 + 1) k := by
        refine ih (p1 + 1) (p2 + 1) ?_
        intro t htk
        rw [show p1 + 1 + t = p1 + (t + 1) by omega, show p2 + 1 + t = p2 + (t + 1) by omega]
        exact h (t + 1) (by omega)
      simp only [readLimbs, h0, ht]

theorem readLimbs_getD (mem : Nat → Nat) :
    ∀ (k p i : Nat), i < k → (readLimbs mem p k).getD i 0 = mem (p + i) := by
  intro k
  induction k with
  | zero => omega
  | succ k ih =>
      intro p i hi
      cases i with
      | zero => simp [readLimbs]
      | succ i =>
          have := ih (p + 1) i (by omega)
          simpa [readLimbs, Nat.add_assoc, Nat.add_comm 1 i] using this

theorem list_eq_of_getD :
    ∀ (L1 L2 : List Nat), L1.length = L2.length →
      (∀ i, i < L1.length → L1.getD i 0 = L2.getD i 0) → L1 = L2 := by
  intro L1
  induction L1 with
  | nil => intro L2 hlen _; cases L2 with
      | nil => rfl
      | cons b bs => simp at hlen
  | cons a as ih =>
      intro L2 hlen h
      cases L2 with
      | nil => simp at hlen
      | cons b bs =>
          have h0 := h 0 (by simp)
          have htail : as = bs := by
            refine ih bs (by simpa using hlen) ?_
            intro i hi
            have := h (i + 1) (by simpa using Nat.succ_lt_succ hi)
            simpa using this
          simp at h0
          rw [h0, htail]

/-- Frame property of the loop: a location that is none of the `k`
result slots `res + j, ..., res + (j + k - 1)` is untouched. -/
theorem mul1_go_frame (B v res s1 : Nat) :
    ∀ (k j cy : Nat) (mem : Nat → Nat) (a : Nat),
      (∀ i, i < k → a ≠ res + (j + i)) →
      (mul1_go B v res s1 k j cy mem).1 a = mem a := by
  intro k
  induction k with
  | zero => intro j cy mem a _; rfl
  | succ k ih =>
      intro j cy mem a ha
      rw [mul1_go_succ]
      have h1 : (mul1_go B v res s1 k (j + 1)
          ((mem (s1 + j) * v / B + 0 + (mem (s1 + j) * v % B + cy) / B) % B)
          (fun x => if x = res + j then (mem (s1 + j) * v % B + cy) % B else mem x)).1 a
          = (fun x => if x = res + j then (mem (s1 + j) * v % B + cy) % B else mem x) a := by
        refine ih (j + 1) _ _ a ?_
        intro i hi
        have := ha (i + 1) (by omega)
        omega
      simp only [h1]
      have : a ≠ res + j := by have := ha 0 (by omega); omega
      simp [this]

/-- Bridge between the memory-level loop and the list-level loop: as
long as no iteration reads a location written by an earlier iteration
(true both for fully disjoint buffers and for the exact-overlap
in-place call), the carry and the written result limbs are those of
`mul1_list` run on a snapshot of the source limbs. -/
theorem mul1_go_spec (B v res s1 : Nat) :
    ∀ (k j cy : Nat) (mem : Nat → Nat),
      (∀ t i, t < k → i < t → s1 + (j + t) ≠ res + (j + i)) →
      (mul1_go B v res s1 k j cy mem).2.1 = (mul1_list B v (readLimbs mem (s1 + j) k) cy).2
        ∧ ∀ i, i < k → (mul1_go B v res s1 k j cy mem).1 (res + (j + i))
            = (mul1_list B v (readLimbs mem (s1 + j) k) cy).1.getD i 0 := by
  intro k
  induction k with
  | zero => intro j cy mem _; exact ⟨rfl, by omega⟩
  | succ k ih =>
      intro j cy mem hsep
      have hreads : readLimbs (fun a => if a = res + j then (mem (s1 + j) * v % B + cy) % B
            else mem a) (s1 + (j + 1)) k = readLimbs mem (s1 + (j + 1)) k := by
        refine readLimbs_congr _ _ k (s1 + (j + 1)) (s1 + (j + 1)) ?_
        intro t ht
        have hne : s1 + (j + (t + 1)) ≠ res + (j + 0) := hsep (t + 1) 0 (by omega) (by omega)
        have : s1 + (j + 1) + t ≠ res + j := by omega
        simp [this]
      have hsep' : ∀ t i, t < k → i < t →
          s1 + ((j + 1) + t) ≠ res + ((j + 1) + i) := by
        intro t i ht hi
        have := hsep (t + 1) (i + 1) (by omega) (by omega)
        omega
      have hsnap : readLimbs mem (s1 + j) (k + 1)
          = mem (s1 + j) :: readLimbs mem (s1 + j + 1) k := rfl
      obtain ⟨ihcy, ihlimbs⟩ := ih (j + 1)
        ((mem (s1 + j) * v / B + 0 + (mem (s1 + j) * v % B + cy) / B) % B)
        (fun a => if a = res + j then (mem (s1 + j) * v % B + cy) % B else mem a) hsep'
      constructor
      · rw [mul1_go_succ]
        simp only [hsnap, mul1_list_cons]
        rw [ihcy, hreads]
        have : s1 + (j + 1) = s1 + j + 1 := by omega
        rw [this]
      · intro i hi
        rw [mul1_go_succ]
        cases i with
        | zero =>
            have hframe : (mul1_go B v res s1 k (j + 1)
                ((mem (s1 + j) * v / B + 0 + (mem (s1 + j) * v % B + cy) / B) % B)
                (fun a => if a = res + j then (mem (s1 + j) * v % B + cy) % B else mem a)).1
                  (res + (j + 0))
                = (fun a => if a = res + j then (mem (s1 + j) * v % B + cy) % B else mem a)
                    (res + (j + 0)) := by
              refine mul1_go_frame B v res s1 k (j + 1) _ _ _ ?_
              intro i hi'
              omega
            simp only [hframe, hsnap, mul1_list_cons]
            simp
        | succ i =>
            have hstep := ihlimbs i (by omega)
            have haddr : res + ((j + 1) + i) = res + (j + (i + 1)) := by omega
            have haddr2 : s1 + (j + 1) = s1 + j + 1 := by omega
            rw [haddr2] at hreads
            rw [haddr, haddr2] at hstep
            rw [hstep, hreads, hsnap, mul1_list_cons]
            simp

theorem mul1_list_length (B v : Nat) :
    ∀ (S : List Nat) (cy : Nat), (mul1_list B v S cy).1.length = S.length := by
  intro S
  induction S with
  | nil => intro cy; rfl
  | cons s rest ih => intro cy; rw [mul1_list_cons]; simp [ih]

theorem mul1_go_count (B v res s1 : Nat) :
    ∀ (k j cy : Nat) (mem : Nat → Nat), (mul1_go B v res s1 k j cy mem).2.2 = k := by
  intro k
  induction k with
  | zero => intro j cy mem; rfl
  | succ k ih => intro j cy mem; rw [mul1_go_succ, ih]

theorem readLimbs_mem_spec (mem : Nat → Nat) :
    ∀ (k p x : Nat), x ∈ readLimbs mem p k → ∃ t, t < k ∧ x = mem (p + t) := by
  intro k
  induction k with
  | zero => intro p x h; simp [readLimbs] at h
  | succ k ih =>
      intro p x h
      rcases List.mem_cons.mp h with h0 | h1
      · exact ⟨0, by omega, by simpa using h0⟩
      · obtain ⟨t, ht, hx⟩ := ih (p + 1) x h1
        exact ⟨t + 1, by omega, by rw [hx]; congr 1; omega⟩

theorem limbValue_lt (B : Nat) :
    ∀ (L : List Nat), (∀ x ∈ L, x < B) → limbValue B L < B ^ L.length := by
  intro L
  induction L with
  | nil => intro _; simp [limbValue]
  | cons l ls ih =>
      intro h
      have hl : l < B := h l (by simp)
      have hls := ih (fun x hx => h x (by simp [hx]))
      have h1 : limbValue B ls + 1 ≤ B ^ ls.length := hls
      calc limbValue B (l :: ls) = l + B * limbValue B ls := rfl
        _ < B + B * limbValue B ls := by omega
        _ = B * (limbValue B ls + 1) := by ring
        _ ≤ B * B ^ ls.length := Nat.mul_le_mul_left B h1
        _ = B ^ (l :: ls).length := by rw [List.length_cons, pow_succ]; ring

theorem limbValue_replicate_max (B : Nat) (hB : 1 ≤ B) :
    ∀ n, limbValue B (List.replicate n (B - 1)) = B ^ n - 1 := by
  intro n
  induction n with
  | zero => simp [limbValue]
  | succ n ih =>
      have hp : 1 ≤ B ^ n := Nat.one_le_pow _ _ (by omega)
      have hstep : limbValue B (List.replicate (n + 1) (B - 1))
          = (B - 1) + B * limbValue B (List.replicate n (B - 1)) := rfl
      rw [hstep, ih, pow_succ]
      have hq : 1 ≤ B ^ n * B := by
        calc 1 = 1 * 1 := rfl
          _ ≤ B ^ n * B := Nat.mul_le_mul hp hB
      zify [hB, hp, hq]
      ring

/-- The overlap precondition of the call contract (`none or full
identity`) implies that no loop iteration reads a location written by
an earlier iteration. -/
theorem mul1_sep_ok (res s1 n : Nat)
    (hsep : res = s1 ∨ ∀ i, i < n → ∀ t, t < n → res + i ≠ s1 + t) :
    ∀ t i, t < n → i < t → s1 + (0 + t) ≠ res + (0 + i) := by
  intro t i ht hi
  rcases hsep with h | h
  · omega
  · have := h i (by omega) t ht
    omega

/-- `_gcry_mpih_mul_1` computes exactly `mul1_list` on a snapshot of
the source limbs, whenever the buffers are fully disjoint or fully
identical. -/
theorem gcry_mul_1_eq_list (B v res s1 n : Nat) (mem : Nat → Nat)
    (hsep : res = s1 ∨ ∀ i, i < n → ∀ t, t < n → res + i ≠ s1 + t) :
    (_gcry_mpih_mul_1 B mem res s1 n v).2 = (mul1_list B v (readLimbs mem s1 n) 0).2
      ∧ readLimbs (_gcry_mpih_mul_1 B mem res s1 n v).1 res n
          = (mul1_list B v (readLimbs mem s1 n) 0).1 := by
  obtain ⟨hcy, hlimbs⟩ := mul1_go_spec B v res s1 n 0 0 mem (mul1_sep_ok res s1 n hsep)
  have hbase : s1 + 0 = s1 := by omega
  rw [hbase] at hcy hlimbs
  refine ⟨hcy, ?_⟩
  refine list_eq_of_getD _ _ ?_ ?_
  · rw [readLimbs_length, mul1_list_length]
    rw [readLimbs_length]
  · intro i hi
    rw [readLimbs_length] at hi
    rw [readLimbs_getD _ _ _ _ hi]
    have := hlimbs i hi
    rw [show res + (0 + i) = res + i by omega] at this
    exact this

theorem replicate_getD (c : Nat) : ∀ n i, i < n → (List.replicate n c).getD i 0 = c := by
  intro n
  induction n with
  | zero => omega
  | succ n ih =>
      intro i hi
      cases i with
      | zero => simp [List.replicate]
      | succ i => simpa [List.replicate] using ih i (by omega)

/-- Core correctness of a valid `_gcry_mpih_mul_1` call with `B = 2^w`:
the result limbs and the returned carry decompose the exact product
`value(S) * v` in base `B`, with the result limbs its low `n` limbs and
the carry the limb above them. -/
theorem mul1_value_core (w v res s1 n : Nat) (mem : Nat → Nat)
    (hw : 0 < w) (hv : v < 2 ^ w)
    (hlimb : ∀ i, i < n → mem (s1 + i) < 2 ^ w)
    (hsep : res = s1 ∨ ∀ i, i < n → ∀ t, t < n → res + i ≠ s1 + t) :
    limbValue (2 ^ w) (readLimbs (_gcry_mpih_mul_1 (2 ^ w) mem res s1 n v).1 res n)
        + (_gcry_mpih_mul_1 (2 ^ w) mem res s1 n v).2 * (2 ^ w) ^ n
      = limbValue (2 ^ w) (readLimbs mem s1 n) * v
    ∧ limbValue (2 ^ w) (readLimbs (_gcry_mpih_mul_1 (2 ^ w) mem res s1 n v).1 res n)
        = limbValue (2 ^ w) (readLimbs mem s1 n) * v % (2 ^ w) ^ n
    ∧ (_gcry_mpih_mul_1 (2 ^ w) mem res s1 n v).2
        = limbValue (2 ^ w) (readLimbs mem s1 n) * v / (2 ^ w) ^ n
    ∧ limbValue (2 ^ w) (readLimbs (_gcry_mpih_mul_1 (2 ^ w) mem res s1 n v).1 res n)
        < (2 ^ w) ^ n := by
  have hB : 1 < 2 ^ w := by
    have h1 : 2 ^ 1 ≤ 2 ^ w := Nat.pow_le_pow_right (by omega) (by omega)
    rw [pow_one] at h1
    omega
  obtain ⟨hcy, hlimbs⟩ := gcry_mul_1_eq_list (2 ^ w) v res s1 n mem hsep
  have hSmem : ∀ s ∈ readLimbs mem s1 n, s < 2 ^ w := by
    intro s hs
    obtain ⟨t, ht, rfl⟩ := readLimbs_mem_spec mem n s1 s hs
    exact hlimb t ht
  obtain ⟨hval, hclt, hlen, hxlt⟩ :=
    mul1_list_correct (2 ^ w) v hB hv (readLimbs mem s1 n) 0 hSmem (by omega)
  have hlenS : (readLimbs mem s1 n).length = n := readLimbs_length _ _ _
  rw [hlenS] at hval
  have heq : limbValue (2 ^ w) (readLimbs (_gcry_mpih_mul_1 (2 ^ w) mem res s1 n v).1 res n)
      + (_gcry_mpih_mul_1 (2 ^ w) mem res s1 n v).2 * (2 ^ w) ^ n
      = limbValue (2 ^ w) (readLimbs mem s1 n) * v := by
    rw [hlimbs, hcy]
    simpa using hval
  have hRlt : limbValue (2 ^ w) (readLimbs (_gcry_mpih_mul_1 (2 ^ w) mem res s1 n v).1 res n)
      < (2 ^ w) ^ n := by
    rw [hlimbs]
    have := limbValue_lt (2 ^ w) (mul1_list (2 ^ w) v (readLimbs mem s1 n) 0).1 hxlt
    rwa [hlen, hlenS] at this
  have hMpos : 0 < (2 ^ w) ^ n := pow_pos (by omega) n
  have hcomm : limbValue (2 ^ w) (readLimbs (_gcry_mpih_mul_1 (2 ^ w) mem res s1 n v).1 res n)
      + (2 ^ w) ^ n * (_gcry_mpih_mul_1 (2 ^ w) mem res s1 n v).2
      = limbValue (2 ^ w) (readLimbs mem s1 n) * v := by
    rw [Nat.mul_comm]
    exact heq
  have huniq := (Nat.div_mod_unique hMpos).mpr ⟨hcomm, hRlt⟩
  exact ⟨heq, huniq.2.symm, huniq.1.symm, hRlt⟩

/-- C1: For every limb sequence `S` of length `n >= 1` and every
scalar limb `v`, after `_gcry_mpih_mul_1(res_ptr, s1_ptr, n, v)`
returns carry `c`, the base-`B` weighted value of the `n` result limbs
plus `c * B^n` equals `value(S) * v` exactly (`B = 2^w` the limb
radix); the result buffer holds the low `n` limbs of `S * v` and the
return value is the limb above that range. -/
theorem C1_mul_1_carry_correct (w v res s1 n : Nat) (mem : Nat → Nat)
    (hw : 0 < w) (hn : 0 < n) (hv : v < 2 ^ w)
    (hlimb : ∀ i, i < n → mem (s1 + i) < 2 ^ w)
    (hsep : res = s1 ∨ ∀ i, i < n → ∀ t, t < n → res + i ≠ s1 + t) :
    limbValue (2 ^ w) (readLimbs (_gcry_mpih_mul_1 (2 ^ w) mem res s1 n v).1 res n)
        + (_gcry_mpih_mul_1 (2 ^ w) mem res s1 n v).2 * (2 ^ w) ^ n
      = limbValue (2 ^ w) (readLimbs mem s1 n) * v
    ∧ limbValue (2 ^ w) (readLimbs (_gcry_mpih_mul_1 (2 ^ w) mem res s1 n v).1 res n)
        = limbValue (2 ^ w) (readLimbs mem s1 n) * v % (2 ^ w) ^ n
    ∧ (_gcry_mpih_mul_1 (2 ^ w) mem res s1 n v).2
        = limbValue (2 ^ w) (readLimbs mem s1 n) * v / (2 ^ w) ^ n := by
  obtain ⟨h1, h2, h3, _⟩ := mul1_value_core w v res s1 n mem hw hv hlimb hsep
  exact ⟨h1, h2, h3⟩

theorem C1_mul_1_carry_correct_witness :
    limbValue (2 ^ 2) (readLimbs
        (_gcry_mpih_mul_1 (2 ^ 2) (fun a => if a = 0 then 3 else if a = 1 then 1 else 7) 5 0 2 3).1 5 2)
        + (_gcry_mpih_mul_1 (2 ^ 2) (fun a => if a = 0 then 3 else if a = 1 then 1 else 7) 5 0 2 3).2
            * (2 ^ 2) ^ 2
      = limbValue (2 ^ 2) (readLimbs (fun a => if a = 0 then 3 else if a = 1 then 1 else 7) 0 2) * 3
    ∧ limbValue (2 ^ 2) (readLimbs
        (_gcry_mpih_mul_1 (2 ^ 2) (fun a => if a = 0 then 3 else if a = 1 then 1 else 7) 5 0 2 3).1 5 2)
        = limbValue (2 ^ 2) (readLimbs (fun a => if a = 0 then 3 else if a = 1 then 1 else 7) 0 2) * 3
            % (2 ^ 2) ^ 2
    ∧ (_gcry_mpih_mul_1 (2 ^ 2) (fun a => if a = 0 then 3 else if a = 1 then 1 else 7) 5 0 2 3).2
        = limbValue (2 ^ 2) (readLimbs (fun a => if a = 0 then 3 else if a = 1 then 1 else 7) 0 2) * 3
            / (2 ^ 2) ^ 2 :=
  C1_mul_1_carry_correct 2 3 5 0 2 (fun a => if a = 0 then 3 else if a = 1 then 1 else 7)
    (by decide) (by decide) (by decide) (by decide) (Or.inr (by decide))

/-- C2: For every call with `s1_size = n >= 1` the loop body of
`_gcry_mpih_mul_1` executes exactly `n` times, once per limb position,
least significant first, with no early exit, and the function
terminates (the loop is a total structural recursion); the iteration
count depends only on `n`, never on the limb values, the carry, the
radix, or the scalar. -/
theorem C2_loop_runs_n_times (B v res s1 n cy : Nat) (mem : Nat → Nat) (hn : 0 < n) :
    (mul1_go B v res s1 n 0 cy mem).2.2 = n
      ∧ ∀ (B' v' cy' : Nat) (mem' : Nat → Nat),
          (mul1_go B' v' res s1 n 0 cy' mem').2.2 = (mul1_go B v res s1 n 0 cy mem).2.2 := by
  refine ⟨mul1_go_count B v res s1 n 0 cy mem, ?_⟩
  intro B' v' cy' mem'
  rw [mul1_go_count, mul1_go_count]

theorem C2_loop_runs_n_times_witness :
    (mul1_go 4 3 5 0 2 0 0 (fun a => if a = 0 then 3 else if a = 1 then 1 else 7)).2.2 = 2
      ∧ ∀ (B' v' cy' : Nat) (mem' : Nat → Nat),
          (mul1_go B' v' 5 0 2 0 cy' mem').2.2
            = (mul1_go 4 3 5 0 2 0 0 (fun a => if a = 0 then 3 else if a = 1 then 1 else 7)).2.2 :=
  C2_loop_runs_n_times 4 3 5 0 2 0 (fun a => if a = 0 then 3 else if a = 1 then 1 else 7) (by decide)

/-- C3: For every limb sequence of length `n >= 1` and every scalar
`v`, the carry returned by `_gcry_mpih_mul_1` is at most `B - 2`
(`S * v` always fits in `n + 1` limbs, never wrapping past one extra
limb), and when `v = B - 1` and every source limb equals `B - 1` the
returned carry attains the maximal value `B - 2`. -/
theorem C3_carry_at_most_B_sub_2 (w v res s1 n : Nat) (mem : Nat → Nat)
    (hw : 0 < w) (hn : 0 < n) (hv : v < 2 ^ w)
    (hlimb : ∀ i, i < n → mem (s1 + i) < 2 ^ w)
    (hsep : res = s1 ∨ ∀ i, i < n → ∀ t, t < n → res + i ≠ s1 + t) :
    (_gcry_mpih_mul_1 (2 ^ w) mem res s1 n v).2 ≤ 2 ^ w - 2
      ∧ ((v = 2 ^ w - 1 ∧ ∀ i, i < n → mem (s1 + i) = 2 ^ w - 1) →
          (_gcry_mpih_mul_1 (2 ^ w) mem res s1 n v).2 = 2 ^ w - 2) := by
  have hB : 1 < 2 ^ w := by
    have h1 : 2 ^ 1 ≤ 2 ^ w := Nat.pow_le_pow_right (by omega) (by omega)
    rw [pow_one] at h1
    omega
  have hBM : 2 ^ w ≤ (2 ^ w) ^ n := Nat.le_self_pow (by omega) _
  have hMpos : 0 < (2 ^ w) ^ n := by omega
  obtain ⟨_, _, hdiv, _⟩ := mul1_value_core w v res s1 n mem hw hv hlimb hsep
  have hkey : (((2 ^ w) ^ n - 1) * (2 ^ w - 1)) / (2 ^ w) ^ n = 2 ^ w - 2 := by
    have hid : ((2 ^ w) ^ n - 1) * (2 ^ w - 1)
        = ((2 ^ w) ^ n - 2 ^ w + 1) + (2 ^ w) ^ n * (2 ^ w - 2) := by
      zify [hB.le, hBM, hMpos, (by omega : (1 : Nat) ≤ 2 ^ w), (by omega : (2 : Nat) ≤ 2 ^ w)]
      ring
    rw [hid, Nat.add_mul_div_left _ _ hMpos, Nat.div_eq_of_lt (by omega)]
    omega
  constructor
  · have hSle : limbValue (2 ^ w) (readLimbs mem s1 n) ≤ (2 ^ w) ^ n - 1 := by
      have hSmem : ∀ s ∈ readLimbs mem s1 n, s < 2 ^ w := by
        intro s hs
        obtain ⟨t, ht, rfl⟩ := readLimbs_mem_spec mem n s1 s hs
        exact hlimb t ht
      have := limbValue_lt (2 ^ w) (readLimbs mem s1 n) hSmem
      rw [readLimbs_length] at this
      omega
    have hXle : limbValue (2 ^ w) (readLimbs mem s1 n) * v
        ≤ ((2 ^ w) ^ n - 1) * (2 ^ w - 1) :=
      Nat.mul_le_mul hSle (by omega)
    rw [hdiv]
    calc limbValue (2 ^ w) (readLimbs mem s1 n) * v / (2 ^ w) ^ n
        ≤ ((2 ^ w) ^ n - 1) * (2 ^ w - 1) / (2 ^ w) ^ n := Nat.div_le_div_right hXle
      _ = 2 ^ w - 2 := hkey
  · rintro ⟨hvmax, hmax⟩
    have hrep : readLimbs mem s1 n = List.replicate n (2 ^ w - 1) := by
      refine list_eq_of_getD _ _ ?_ ?_
      · rw [readLimbs_length, List.length_replicate]
      · intro i hi
        rw [readLimbs_length] at hi
        rw [readLimbs_getD _ _ _ _ hi, replicate_getD _ _ _ hi]
        exact hmax i hi
    have hXval : limbValue (2 ^ w) (readLimbs mem s1 n) * v
        = ((2 ^ w) ^ n - 1) * (2 ^ w - 1) := by
      rw [hrep, hvmax, limbValue_replicate_max _ (by omega)]
    rw [hdiv, hXval, hkey]

theorem C3_carry_at_most_B_sub_2_witness :
    (_gcry_mpih_mul_1 (2 ^ 2) (fun _ => 3) 5 0 2 3).2 ≤ 2 ^ 2 - 2
      ∧ ((3 = 2 ^ 2 - 1 ∧ ∀ i, i < 2 → (fun _ => 3 : Nat → Nat) (0 + i) = 2 ^ 2 - 1) →
          (_gcry_mpih_mul_1 (2 ^ 2) (fun _ => 3) 5 0 2 3).2 = 2 ^ 2 - 2) :=
  C3_carry_at_most_B_sub_2 2 3 5 0 2 (fun _ => 3)
    (by decide) (by decide) (by decide) (by decide) (Or.inr (by decide))

/-- C4: In-place operation is supported: calling `_gcry_mpih_mul_1`
with `res_ptr = s1_ptr = p` (full identity overlap) produces exactly
the same result limbs and the same carry as calling it with a disjoint
result buffer on a copy of the same source values. -/
theorem C4_in_place_equivalent (B v p res s1 n : Nat) (mem mem' : Nat → Nat)
    (hcopy : ∀ i, i < n → mem' (s1 + i) = mem (p + i))
    (hdisj : ∀ i, i < n → ∀ t, t < n → res + i ≠ s1 + t) :
    (_gcry_mpih_mul_1 B mem p p n v).2 = (_gcry_mpih_mul_1 B mem' res s1 n v).2
      ∧ ∀ i, i < n → (_gcry_mpih_mul_1 B mem p p n v).1 (p + i)
          = (_gcry_mpih_mul_1 B mem' res s1 n v).1 (res + i) := by
  have hsnap : readLimbs mem' s1 n = readLimbs mem p n :=
    readLimbs_congr mem' mem n s1 p (fun t ht => hcopy t ht)
  obtain ⟨hcy1, hl1⟩ := gcry_mul_1_eq_list B v p p n mem (Or.inl rfl)
  obtain ⟨hcy2, hl2⟩ := gcry_mul_1_eq_list B v res s1 n mem' (Or.inr hdisj)
  rw [hsnap] at hcy2 hl2
  refine ⟨by rw [hcy1, hcy2], ?_⟩
  intro i hi
  have e1 : (_gcry_mpih_mul_1 B mem p p n v).1 (p + i)
      = (readLimbs (_gcry_mpih_mul_1 B mem p p n v).1 p n).getD i 0 :=
    (readLimbs_getD _ n p i hi).symm
  have e2 : (_gcry_mpih_mul_1 B mem' res s1 n v).1 (res + i)
      = (readLimbs (_gcry_mpih_mul_1 B mem' res s1 n v).1 res n).getD i 0 :=
    (readLimbs_getD _ n res i hi).symm
  rw [e1, e2, hl1, hl2]

theorem C4_in_place_equivalent_witness :
    (_gcry_mpih_mul_1 10 (fun a => if a = 0 then 9 else if a = 1 then 4 else 8) 0 0 2 7).2
        = (_gcry_mpih_mul_1 10 (fun a => if a = 20 then 9 else if a = 21 then 4 else 8) 30 20 2 7).2
      ∧ ∀ i, i < 2 →
          (_gcry_mpih_mul_1 10 (fun a => if a = 0 then 9 else if a = 1 then 4 else 8) 0 0 2 7).1 (0 + i)
            = (_gcry_mpih_mul_1 10 (fun a => if a = 20 then 9 else if a = 21 then 4 else 8)
                30 20 2 7).1 (30 + i) :=
  C4_in_place_equivalent 10 7 0 30 20 2
    (fun a => if a = 0 then 9 else if a = 1 then 4 else 8)
    (fun a => if a = 20 then 9 else if a = 21 then 4 else 8)
    (by decide) (by decide)

/-- C5: A call with a result buffer disjoint from the source writes
only the `n` limbs `res_ptr[0..n-1]`: every memory location outside the
designated result range — in particular the whole source sequence
`s1_ptr[0..n-1]` — holds its old value after the call, and the call's
only other effect is the returned carry. -/
theorem C5_writes_only_result_range (B v res s1 n : Nat) (mem : Nat → Nat)
    (hdisj : ∀ i, i < n → ∀ t, t < n → res + i ≠ s1 + t) :
    (∀ a, (∀ i, i < n → a ≠ res + i) → (_gcry_mpih_mul_1 B mem res s1 n v).1 a = mem a)
      ∧ ∀ t, t < n → (_gcry_mpih_mul_1 B mem res s1 n v).1 (s1 + t) = mem (s1 + t) := by
  have hframe : ∀ a, (∀ i, i < n → a ≠ res + i) →
      (_gcry_mpih_mul_1 B mem res s1 n v).1 a = mem a := by
    intro a ha
    exact mul1_go_frame B v res s1 n 0 0 mem a (fun i hi => by have := ha i hi; omega)
  refine ⟨hframe, ?_⟩
  intro t ht
  refine hframe (s1 + t) ?_
  intro i hi
  have := hdisj i hi t ht
  omega

theorem C5_writes_only_result_range_witness :
    (∀ a, (∀ i, i < 2 → a ≠ 30 + i) →
        (_gcry_mpih_mul_1 10 (fun a => if a = 20 then 9 else 4) 30 20 2 7).1 a
          = (fun a => if a = 20 then 9 else 4 : Nat → Nat) a)
      ∧ ∀ t, t < 2 →
          (_gcry_mpih_mul_1 10 (fun a => if a = 20 then 9 else 4) 30 20 2 7).1 (20 + t)
            = (fun a => if a = 20 then 9 else 4 : Nat → Nat) (20 + t) :=
  C5_writes_only_result_range 10 7 30 20 2 (fun a => if a = 20 then 9 else 4) (by decide)

/-! ## The known-answer-test harness: `t-mlkem.c` -/

/-- Prefix test: `strncmp (line, tag, strlen tag) == 0`, written with
the tag first.  True when `line` starts with `tag`. -/
def strncmpEq : List Char → List Char → Bool
  | [], _ => true
  | _ :: _, [] => false
  | t :: ts, c :: cs => t == c && strncmpEq ts cs

/-- C `strchr`: the suffix of the string starting at the first
occurrence of `c`, or `none` when `c` does not occur. -/
def strchr (c : Char) : List Char → Option (List Char)
  | [] => none
  | x :: xs => if x == c then some (x :: xs) else strchr c xs

/-- Digit-accumulation part of C `atoi`: consume leading decimal digits,
accumulating into `acc`, and stop at the first non-digit. -/
def atoiDigits : List Char → Nat → Nat
  | [], acc => acc
  | c :: cs, acc => if c.isDigit then atoiDigits cs (acc * 10 + (c.toNat - '0'.toNat)) else acc

/-- C `atoi`: skip leading white space, accept an optional sign, then
read decimal digits up to the first non-digit (0 when there are none). -/
def atoi (s : List Char) : Int :=
  let t := s.dropWhile (fun c => c == ' ' || c == '\t' || c == '\n' || c == '\r'
    || c == '\x0b' || c == '\x0c')
  match t with
  | '-' :: rest => - (atoiDigits rest 0 : Int)
  | '+' :: rest => (atoiDigits rest 0 : Int)
  | _ => (atoiDigits t 0 : Int)

/-- Modelled from the spec: the three parameter-set identifiers of the
public KEM API (`GCRY_KEM_MLKEM512/768/1024`, declared in the library
header, which is not part of this file).  Only their being distinct
non-zero codes matters to the harness. -/
def GCRY_KEM_MLKEM512 : Nat := 3

/-- Modelled from the spec: see `GCRY_KEM_MLKEM512`. -/
def GCRY_KEM_MLKEM768 : Nat := 4

/-- Modelled from the spec: see `GCRY_KEM_MLKEM512`. -/
def GCRY_KEM_MLKEM1024 : Nat := 5

/-- The function `parse_annotation` of `t-mlkem.c`: find the first
`'-'` in the bracketed line; with no `'-'` report a syntax error
(`fail`, modelled by the `true` flag) and return 0; otherwise `atoi`
the text after the `'-'` and switch on it: 512 selects ML-KEM-512,
1024 selects ML-KEM-1024, and 768 together with every other value
(the `default` case) selects ML-KEM-768. -/
def parse_annot (line : List Char) : Nat × Bool :=
  match strchr '-' line with
  | none => (0, true)
  | some s =>
      let n := atoi (s.drop 1)
      if n = 512 then (GCRY_KEM_MLKEM512, false)
      else if n = 1024 then (GCRY_KEM_MLKEM1024, false)
      else (GCRY_KEM_MLKEM768, false)

/-- The integer value the spec's words describe: the `atoi` of the text
after the first `'-'` of the line.  Stated independently of
`parse_annot` (via `dropWhile`) so that the theorem for C9 relates the
code's `strchr`-based scan to it. -/
def dashNumber (line : List Char) : Int :=
  atoi ((line.dropWhile (fun c => c != '-')).drop 1)

/-- Modelled from the spec: `copy_data` of the shared test support
(`t-common.h`, not part of this file) stores the text of the line after
the first `':'`, with leading white space skipped, into the record
field.  Every recognized tag that reaches it contains a `':'`. -/
def copy_data (line : List Char) : List Char :=
  ((line.dropWhile (fun c => c != ':')).drop 1).dropWhile (fun c => c == ' ' || c == '\t')

/-- Modelled from the spec: `hex2buffer` of the shared test support
(not part of this file) decodes a string of hexadecimal digit pairs
into bytes, failing (NULL) on any non-hex-digit or an odd-length
string. -/
def hexdigit_val (c : Char) : Option Nat :=
  if '0' ≤ c ∧ c ≤ '9' then some (c.toNat - '0'.toNat)
  else if 'a' ≤ c ∧ c ≤ 'f' then some (c.toNat - 'a'.toNat + 10)
  else if 'A' ≤ c ∧ c ≤ 'F' then some (c.toNat - 'A'.toNat + 10)
  else none

/-- Modelled from the spec: see `hexdigit_val`. -/
def hex2buffer : List Char → Option (List Nat)
  | [] => some []
  | [_] => none
  | c1 :: c2 :: rest =>
      match hexdigit_val c1, hexdigit_val c2, hex2buffer rest with
      | some h, some l, some bs => some ((h * 16 + l) :: bs)
      | _, _, _ => none

/-- Lower-case hexadecimal digit, as printed by `%02x`. -/
def hexDigitChar (n : Nat) : Char :=
  if n < 10 then Char.ofNat ('0'.toNat + n) else Char.ofNat ('a'.toNat + n - 10)

/-- The hex dump the harness prints on a mismatch: one `" %02x"` group
per byte of the buffer, in order. -/
def hexDump (bs : List Nat) : List Char :=
  (bs.map (fun b => [' ', hexDigitChar (b / 16 % 16), hexDigitChar (b % 16)])).flatten

/-- Modelled from the spec: the KEM API the harness drives
(`gcry_kem_genkey`, `gcry_kem_encap`, `gcry_kem_decap` — external
collaborators, specified only at the boundary): key generation maps
coins to a (public key, secret key) pair; encapsulation maps a public
key and coins to a (ciphertext, shared secret) pair; decapsulation maps
a secret key and a ciphertext to a shared secret.  The error path of
these calls is not modelled; the claims in scope concern the byte
comparison after the call. -/
structure KemImpl where
  genkey : Nat → List Nat → List Nat × List Nat
  encap : Nat → List Nat → List Nat → List Nat × List Nat
  decap : Nat → List Nat → List Nat → List Nat

/-- One harness report line group: either an input-preparation failure
(`fail ("error preparing input ...")`) or a known-answer mismatch
(`fail ("test %d failed: mismatch")` followed by the full hex dumps of
the computed and the known-answer buffer). -/
inductive Report where
  | prepFail (testno : Nat) (field : List Char)
  | mismatch (testno : Nat) (label computedDump knownansDump : List Char)
  deriving DecidableEq

/-- Errors counted (each `fail` call increments `error_count`) and
reports emitted by one `one_*_test` invocation. -/
structure Outcome where
  errors : Nat
  reports : List Report
  deriving DecidableEq

/-- `one_decap_test`: hex-decode `sk`, `ct` and `ss` (each failure is a
`fail` plus `goto leave`), run decapsulation, and compare the computed
shared secret against the known answer over `ss_len` bytes; on a
mismatch, `fail` and print the full hex dumps of the computed and the
known-answer bytes.  The public key is not among its inputs. -/
def one_decap_test (K : KemImpl) (testno algo : Nat)
    (sk_str ct_str ss_str : List Char) : Outcome :=
  match hex2buffer sk_str with
  | none => ⟨1, [Report.prepFail testno ("sk".toList)]⟩
  | some sk =>
  match hex2buffer ct_str with
  | none => ⟨1, [Report.prepFail testno ("ct".toList)]⟩
  | some ct =>
  match hex2buffer ss_str with
  | none => ⟨1, [Report.prepFail testno ("ss".toList)]⟩
  | some ss =>
      let ss_computed := (K.decap algo sk ct).take ss.length
      if ss_computed = ss then ⟨0, []⟩
      else ⟨1, [Report.mismatch testno ("ss".toList) (hexDump ss_computed) (hexDump ss)]⟩

/-- `one_encap_test`: hex-decode `pk`, `ct`, `ss` and `coins`, run
encapsulation, compare first the shared secret and then the ciphertext
against the known answers, each mismatch a `fail` with both dumps. -/
def one_encap_test (K : KemImpl) (testno algo : Nat)
    (pk_str coins_str ct_str ss_str : List Char) : Outcome :=
  match hex2buffer pk_str with
  | none => ⟨1, [Report.prepFail testno ("pk".toList)]⟩
  | some pk =>
  match hex2buffer ct_str with
  | none => ⟨1, [Report.prepFail testno ("ct".toList)]⟩
  | some ct =>
  match hex2buffer ss_str with
  | none => ⟨1, [Report.prepFail testno ("ss".toList)]⟩
  | some ss =>
  match hex2buffer coins_str with
  | none => ⟨1, [Report.prepFail testno ("coins".toList)]⟩
  | some coins =>
      let r := K.encap algo pk coins
      let ct_computed := r.1.take ct.length
      let ss_computed := r.2.take ss.length
      let oss : Outcome := if ss_computed = ss then ⟨0, []⟩
        else ⟨1, [Report.mismatch testno ("ss".toList) (hexDump ss_computed) (hexDump ss)]⟩
      let oct : Outcome := if ct_computed = ct then ⟨0, []⟩
        else ⟨1, [Report.mismatch testno ("ct".toList) (hexDump ct_computed) (hexDump ct)]⟩
      ⟨oss.errors + oct.errors, oss.reports ++ oct.reports⟩

/-- Modelled from the spec: `GCRY_KEM_MLKEM_RANDOM_LEN` (header
constant, 32) — the fixed length of each random seed half. -/
def GCRY_KEM_MLKEM_RANDOM_LEN : Nat := 32

/-- `one_genkey_test`: hex-decode `z` and `d`, check
`z_len + d_len = 2 * GCRY_KEM_MLKEM_RANDOM_LEN`, build the coins as
`d` followed by `z`, hex-decode the expected `pk` and `sk`, run key
generation and compare first the public key and then the secret key,
each mismatch a `fail` with both dumps. -/
def one_genkey_test (K : KemImpl) (testno algo : Nat)
    (z_str d_str sk_str pk_str : List Char) : Outcome :=
  match hex2buffer z_str with
  | none => ⟨1, [Report.prepFail testno ("z".toList)]⟩
  | some z =>
  match hex2buffer d_str with
  | none => ⟨1, [Report.prepFail testno ("d".toList)]⟩
  | some d =>
  if z.length + d.length ≠ GCRY_KEM_MLKEM_RANDOM_LEN * 2 then
    ⟨1, [Report.prepFail testno ("coins".toList)]⟩
  else
  match hex2buffer pk_str with
  | none => ⟨1, [Report.prepFail testno ("pk".toList)]⟩
  | some pk =>
  match hex2buffer sk_str with
  | none => ⟨1, [Report.prepFail testno ("sk".toList)]⟩
  | some sk =>
      let r := K.genkey algo (d ++ z)
      let pk_computed := r.1.take pk.length
      let sk_computed := r.2.take sk.length
      let opk : Outcome := if pk_computed = pk then ⟨0, []⟩
        else ⟨1, [Report.mismatch testno ("pk".toList) (hexDump pk_computed) (hexDump pk)]⟩
      let osk : Outcome := if sk_computed = sk then ⟨0, []⟩
        else ⟨1, [Report.mismatch testno ("sk".toList) (hexDump sk_computed) (hexDump sk)]⟩
      ⟨opk.errors + osk.errors, opk.reports ++ osk.reports⟩

/-- A dispatched test, in dispatch order, with the record fields it was
given. -/
inductive TestEvent where
  | decap (testno algo : Nat) (sk ct ss : List Char)
  | encap (testno algo : Nat) (pk coins ct ss : List Char)
  | genkey (testno algo : Nat) (z d sk pk : List Char)
  deriving DecidableEq

/-- The state of `check_mlkem_kat`'s record loop: the selected
algorithm, the counters `testno`/`ntests`, the global `error_count`,
the reports printed so far, the trace of dispatched tests, and the
seven record-field string slots (`NULL` = `none`). -/
structure KatState where
  algo : Nat
  testno : Nat
  ntests : Nat
  errors : Nat
  reports : List Report
  tests : List TestEvent
  pk : Option (List Char)
  sk : Option (List Char)
  ct : Option (List Char)
  ss : Option (List Char)
  coins : Option (List Char)
  z : Option (List Char)
  d : Option (List Char)
  deriving DecidableEq

/-- First completion condition checked by the loop:
`pk_str && sk_str && ct_str && ss_str` (decapsulation record). -/
def decapReady (st : KatState) : Bool :=
  st.pk.isSome && st.sk.isSome && st.ct.isSome && st.ss.isSome

/-- Second completion condition: `pk_str && coins_str && ct_str &&
ss_str` (encapsulation record). -/
def encapReady (st : KatState) : Bool :=
  st.pk.isSome && st.coins.isSome && st.ct.isSome && st.ss.isSome

/-- Third completion condition: `sk_str && pk_str && z_str && d_str`
(key-generation record). -/
def genkeyReady (st : KatState) : Bool :=
  st.sk.isSome && st.pk.isSome && st.z.isSome && st.d.isSome

/-- The record-completion check the loop performs after every line:
in order, decapsulation, encapsulation, key generation; the first
condition that holds dispatches its test, bumps the counters, merges
the test's errors and reports, and frees (resets to `none`) exactly the
fields of that condition. -/
def checkComplete (K : KemImpl) (st : KatState) : KatState :=
  if decapReady st then
    let o := one_decap_test K (st.testno + 1) st.algo (st.sk.getD []) (st.ct.getD [])
      (st.ss.getD [])
    { st with
      testno := st.testno + 1
      ntests := st.ntests + 1
      errors := st.errors + o.errors
      reports := st.reports ++ o.reports
      tests := st.tests ++ [TestEvent.decap (st.testno + 1) st.algo (st.sk.getD [])
        (st.ct.getD []) (st.ss.getD [])]
      pk := none
      sk := none
      ct := none
      ss := none }
  else if encapReady st then
    let o := one_encap_test K (st.testno + 1) st.algo (st.pk.getD []) (st.coins.getD [])
      (st.ct.getD []) (st.ss.getD [])
    { st with
      testno := st.testno + 1
      ntests := st.ntests + 1
      errors := st.errors + o.errors
      reports := st.reports ++ o.reports
      tests := st.tests ++ [TestEvent.encap (st.testno + 1) st.algo (st.pk.getD [])
        (st.coins.getD []) (st.ct.getD []) (st.ss.getD [])]
      pk := none
      coins := none
      ct := none
      ss := none }
  else if genkeyReady st then
    let o := one_genkey_test K (st.testno + 1) st.algo (st.z.getD []) (st.d.getD [])
      (st.sk.getD []) (st.pk.getD [])
    { st with
      testno := st.testno + 1
      ntests := st.ntests + 1
      errors := st.errors + o.errors
      reports := st.reports ++ o.reports
      tests := st.tests ++ [TestEvent.genkey (st.testno + 1) st.algo (st.z.getD [])
        (st.d.getD []) (st.sk.getD []) (st.pk.getD [])]
      pk := none
      sk := none
      z := none
      d := none }
  else st

/-- One iteration of the `while (read_textline ...)` loop of
`check_mlkem_kat`: classify the line by its leading tag in the source's
order (`[` annotation, `Public Key:`, `Secret Key:`, `Ciphertext:`,
`Shared Secret A:`, `Shared Secret B:` ignored, `Pseudorandom` ignored,
`ek:`, `m:`, `c:`, `k:`, `z:`, `d:`, `dk:`), store its data into the
corresponding field, or `fail ("unknown tag ...")` for anything else
(one error counted, nothing stored, nothing terminated); then run the
record-completion check. -/
def processLine (K : KemImpl) (st : KatState) (line : List Char) : KatState :=
  let st1 :=
    if strncmpEq ("[".toList) line then
      let r := parse_annot line
      { st with algo := r.1, errors := st.errors + (if r.2 then 1 else 0) }
    else if strncmpEq ("Public Key:".toList) line then { st with pk := some (copy_data line) }
    else if strncmpEq ("Secret Key:".toList) line then { st with sk := some (copy_data line) }
    else if strncmpEq ("Ciphertext:".toList) line then { st with ct := some (copy_data line) }
    else if strncmpEq ("Shared Secret A:".toList) line then { st with ss := some (copy_data line) }
    else if strncmpEq ("Shared Secret B:".toList) line then st
    else if strncmpEq ("Pseudorandom".toList) line then st
    else if strncmpEq ("ek:".toList) line then { st with pk := some (copy_data line) }
    else if strncmpEq ("m:".toList) line then { st with coins := some (copy_data line) }
    else if strncmpEq ("c:".toList) line then { st with ct := some (copy_data line) }
    else if strncmpEq ("k:".toList) line then { st with ss := some (copy_data line) }
    else if strncmpEq ("z:".toList) line then { st with z := some (copy_data line) }
    else if strncmpEq ("d:".toList) line then { st with d := some (copy_data line) }
    else if strncmpEq ("dk:".toList) line then { st with sk := some (copy_data line) }
    else { st with errors := st.errors + 1 }
  checkComplete K st1

/-- The state `check_mlkem_kat` starts from: `testno = 0`,
`ntests = 0`, all field slots `NULL`, no errors, the algorithm taken
from the command line (0 when unset). -/
def initState (algo : Nat) : KatState :=
  { algo := algo
    testno := 0
    ntests := 0
    errors := 0
    reports := []
    tests := []
    pk := none
    sk := none
    ct := none
    ss := none
    coins := none
    z := none
    d := none }

/-- The record loop of `check_mlkem_kat` over the text lines of the
vector file (reading and line-splitting — `read_textline` — happen
outside this model). -/
def check_mlkem_kat (K : KemImpl) (algo : Nat) (lines : List (List Char)) : KatState :=
  lines.foldl (processLine K) (initState algo)

/-- The exit status of `main`: `return !!error_count`. -/
def main_ret (error_count : Nat) : Nat := if error_count = 0 then 0 else 1

/-- A line matches one of the recognized leading tags of
`check_mlkem_kat`'s classifier. -/
def knownTag (line : List Char) : Bool :=
  strncmpEq ("[".toList) line || strncmpEq ("Public Key:".toList) line
    || strncmpEq ("Secret Key:".toList) line || strncmpEq ("Ciphertext:".toList) line
    || strncmpEq ("Shared Secret A:".toList) line || strncmpEq ("Shared Secret B:".toList) line
    || strncmpEq ("Pseudorandom".toList) line || strncmpEq ("ek:".toList) line
    || strncmpEq ("m:".toList) line || strncmpEq ("c:".toList) line
    || strncmpEq ("k:".toList) line || strncmpEq ("z:".toList) line
    || strncmpEq ("d:".toList) line || strncmpEq ("dk:".toList) line

/-- A trivial KEM implementation used to instantiate witnesses. -/
def Kconst : KemImpl :=
  ⟨fun _ _ => ([], []), fun _ _ _ => ([], []), fun _ _ _ => []⟩

theorem strchr_none_iff (c : Char) : ∀ (l : List Char), strchr c l = none ↔ c ∉ l := by
  intro l
  induction l with
  | nil => simp [strchr]
  | cons x xs ih =>
      by_cases hxc : x = c
      · subst hxc
        simp [strchr]
      · rw [strchr, if_neg (by simpa using hxc)]
        rw [ih]
        constructor
        · intro h hmem
          rcases List.mem_cons.mp hmem with h1 | h1
          · exact hxc h1.symm
          · exact h h1
        · intro h hmem
          exact h (List.mem_cons.mpr (Or.inr hmem))

theorem strchr_some_eq (c : Char) : ∀ (l : List Char), c ∈ l →
    strchr c l = some (l.dropWhile (fun x => x != c)) := by
  intro l
  induction l with
  | nil => intro h; simp at h
  | cons x xs ih =>
      intro h
      by_cases hxc : x = c
      · subst hxc
        rw [strchr, if_pos (by simp)]
        simp [List.dropWhile_cons]
      · have hmem : c ∈ xs := by
          rcases List.mem_cons.mp h with h1 | h1
          · exact absurd h1.symm hxc
          · exact h1
        rw [strchr, if_neg (by simpa using hxc)]
        rw [ih hmem]
        simp [List.dropWhile_cons, hxc]

/-- C9: `parse_annotation` returns the ML-KEM-512 identifier exactly
when the integer after the first `'-'` is 512 and the ML-KEM-1024
identifier exactly when it is 1024; every other integer (768 and any
unexpected value alike, via the switch `default`) selects ML-KEM-768;
a line containing no `'-'` is reported as a syntax error and yields
algorithm value 0. -/
theorem C9_parse_annot_cases (line : List Char) :
    (parse_annot line = (GCRY_KEM_MLKEM512, false) ↔ '-' ∈ line ∧ dashNumber line = 512)
      ∧ (parse_annot line = (GCRY_KEM_MLKEM1024, false) ↔ '-' ∈ line ∧ dashNumber line = 1024)
      ∧ ('-' ∈ line → dashNumber line ≠ 512 → dashNumber line ≠ 1024 →
          parse_annot line = (GCRY_KEM_MLKEM768, false))
      ∧ ('-' ∉ line → parse_annot line = (0, true)) := by
  by_cases hmem : '-' ∈ line
  · have hs := strchr_some_eq '-' line hmem
    have hpa : parse_annot line
        = (if dashNumber line = 512 then (GCRY_KEM_MLKEM512, false)
           else if dashNumber line = 1024 then (GCRY_KEM_MLKEM1024, false)
           else (GCRY_KEM_MLKEM768, false)) := by
      simp [parse_annot, hs, dashNumber]
    rw [hpa]
    by_cases h512 : dashNumber line = 512
    · simp [h512, GCRY_KEM_MLKEM512, GCRY_KEM_MLKEM768, GCRY_KEM_MLKEM1024, hmem]
    · by_cases h1024 : dashNumber line = 1024
      · simp [h512, h1024, GCRY_KEM_MLKEM512, GCRY_KEM_MLKEM768, GCRY_KEM_MLKEM1024, hmem]
      · simp [h512, h1024, GCRY_KEM_MLKEM512, GCRY_KEM_MLKEM768, GCRY_KEM_MLKEM1024, hmem]
  · have hn := (strchr_none_iff '-' line).mpr hmem
    refine ⟨?_, ?_, fun h => absurd h hmem, fun _ => by simp [parse_annot, hn]⟩
    · simp [parse_annot, hn, GCRY_KEM_MLKEM512, hmem]
    · simp [parse_annot, hn, GCRY_KEM_MLKEM1024, hmem]

/-- C9 witness: a 512 annotation line is selected via the iff, and a
line without a dash yields the syntax-error result. -/
theorem C9_parse_annot_cases_witness :
    parse_annot ("[Kyber-512]".toList) = (GCRY_KEM_MLKEM512, false)
      ∧ parse_annot ("[Kyber]".toList) = (0, true) :=
  ⟨(C9_parse_annot_cases ("[Kyber-512]".toList)).1.mpr ⟨by decide, by decide⟩,
   (C9_parse_annot_cases ("[Kyber]".toList)).2.2.2 (by decide)⟩

/-- C7: the record-completion check after each line dispatches, in
this order and at the moment its field set is fully populated: a
decapsulation test when {pk, sk, ct, ss} are all populated, resetting
exactly those fields; else an encapsulation test when
{pk, coins, ct, ss} are all populated, resetting exactly those; else a
key-generation test when {sk, pk, z, d} are all populated, resetting
exactly those; else nothing.  Afterwards no completion condition holds,
so the reset invariant holds on every loop iteration. -/
theorem C7_dispatch_and_reset (K : KemImpl) (st : KatState) :
    (decapReady st = true →
        (checkComplete K st).tests
            = st.tests ++ [TestEvent.decap (st.testno + 1) st.algo (st.sk.getD [])
                (st.ct.getD []) (st.ss.getD [])]
          ∧ (checkComplete K st).pk = none ∧ (checkComplete K st).sk = none
          ∧ (checkComplete K st).ct = none ∧ (checkComplete K st).ss = none
          ∧ (checkComplete K st).coins = st.coins ∧ (checkComplete K st).z = st.z
          ∧ (checkComplete K st).d = st.d)
      ∧ (decapReady st = false → encapReady st = true →
          (checkComplete K st).tests
              = st.tests ++ [TestEvent.encap (st.testno + 1) st.algo (st.pk.getD [])
                  (st.coins.getD []) (st.ct.getD []) (st.ss.getD [])]
            ∧ (checkComplete K st).pk = none ∧ (checkComplete K st).coins = none
            ∧ (checkComplete K st).ct = none ∧ (checkComplete K st).ss = none
            ∧ (checkComplete K st).sk = st.sk ∧ (checkComplete K st).z = st.z
            ∧ (checkComplete K st).d = st.d)
      ∧ (decapReady st = false → encapReady st = false → genkeyReady st = true →
          (checkComplete K st).tests
              = st.tests ++ [TestEvent.genkey (st.testno + 1) st.algo (st.z.getD [])
                  (st.d.getD []) (st.sk.getD []) (st.pk.getD [])]
            ∧ (checkComplete K st).pk = none ∧ (checkComplete K st).sk = none
            ∧ (checkComplete K st).z = none ∧ (checkComplete K st).d = none
            ∧ (checkComplete K st).ct = st.ct ∧ (checkComplete K st).ss = st.ss
            ∧ (checkComplete K st).coins = st.coins)
      ∧ (decapReady st = false → encapReady st = false → genkeyReady st = false →
          checkComplete K st = st)
      ∧ decapReady (checkComplete K st) = false
      ∧ encapReady (checkComplete K st) = false
      ∧ genkeyReady (checkComplete K st) = false := by
  refine ⟨?_, ?_, ?_, ?_, ?_, ?_, ?_⟩
  · intro h1
    simp [checkComplete, h1]
  · intro h1 h2
    simp [checkComplete, h1, h2]
  · intro h1 h2 h3
    simp [checkComplete, h1, h2, h3]
  · intro h1 h2 h3
    simp [checkComplete, h1, h2, h3]
  · by_cases h1 : decapReady st
    · unfold checkComplete
      rw [h1]
      simp [decapReady]
    · have h1f : decapReady st = false := by simpa using h1
      by_cases h2 : encapReady st
      · unfold checkComplete
        rw [h1f, h2]
        simp [decapReady]
      · have h2f : encapReady st = false := by simpa using h2
        by_cases h3 : genkeyReady st
        · unfold checkComplete
          rw [h1f, h2f, h3]
          simp [decapReady]
        · have h3f : genkeyReady st = false := by simpa using h3
          unfold checkComplete
          rw [h1f, h2f, h3f]
          simp [h1f]
  · by_cases h1 : decapReady st
    · unfold checkComplete
      rw [h1]
      simp [encapReady]
    · have h1f : decapReady st = false := by simpa using h1
      by_cases h2 : encapReady st
      · unfold checkComplete
        rw [h1f, h2]
        simp [encapReady]
      · have h2f : encapReady st = false := by simpa using h2
        by_cases h3 : genkeyReady st
        · unfold checkComplete
          rw [h1f, h2f, h3]
          simp [encapReady]
        · have h3f : genkeyReady st = false := by simpa using h3
          unfold checkComplete
          rw [h1f, h2f, h3f]
          simp [h2f]
  · by_cases h1 : decapReady st
    · unfold checkComplete
      rw [h1]
      simp [genkeyReady]
    · have h1f : decapReady st = false := by simpa using h1
      by_cases h2 : encapReady st
      · unfold checkComplete
        rw [h1f, h2]
        simp [genkeyReady]
      · have h2f : encapReady st = false := by simpa using h2
        by_cases h3 : genkeyReady st
        · unfold checkComplete
          rw [h1f, h2f, h3]
          simp [genkeyReady]
        · have h3f : genkeyReady st = false := by simpa using h3
          unfold checkComplete
          rw [h1f, h2f, h3f]
          simp [h3f]

/-- A concrete loop state with pk, sk, ct, ss and coins populated. -/
def st_C7 : KatState :=
  { initState 4 with
    pk := some ("0d".toList)
    sk := some ("0a".toList)
    ct := some ("0b".toList)
    ss := some ("0c".toList)
    coins := some ("0e".toList) }

/-- C7 witness: a state with pk, sk, ct and ss populated dispatches a
decapsulation test and resets exactly those four fields. -/
theorem C7_dispatch_and_reset_witness :
    (checkComplete Kconst st_C7).tests
        = st_C7.tests ++ [TestEvent.decap (st_C7.testno + 1) st_C7.algo (st_C7.sk.getD [])
            (st_C7.ct.getD []) (st_C7.ss.getD [])]
      ∧ (checkComplete Kconst st_C7).pk = none
      ∧ (checkComplete Kconst st_C7).sk = none
      ∧ (checkComplete Kconst st_C7).ct = none
      ∧ (checkComplete Kconst st_C7).ss = none
      ∧ (checkComplete Kconst st_C7).coins = st_C7.coins
      ∧ (checkComplete Kconst st_C7).z = st_C7.z
      ∧ (checkComplete Kconst st_C7).d = st_C7.d :=
  (C7_dispatch_and_reset Kconst st_C7).1 (by decide)

/-- C10: no test — in particular no decapsulation test — is dispatched
while the public-key field is unpopulated, even though `one_decap_test`
itself never takes the public key as an input: every completion
condition of the record loop requires `pk_str`, so a record supplying
only secret key, ciphertext and shared secret dispatches nothing. -/
theorem C10_no_decap_without_pk (K : KemImpl) (st : KatState) (h : st.pk = none) :
    checkComplete K st = st := by
  have h1 : decapReady st = false := by simp [decapReady, h]
  have h2 : encapReady st = false := by simp [encapReady, h]
  have h3 : genkeyReady st = false := by simp [genkeyReady, h]
  simp [checkComplete, h1, h2, h3]

/-- A concrete loop state with sk, ct and ss populated but pk empty. -/
def st_C10 : KatState :=
  { initState 4 with
    sk := some ("0a".toList)
    ct := some ("0b".toList)
    ss := some ("0c".toList) }

/-- C10 witness: a record with sk, ct and ss populated but no pk
dispatches nothing. -/
theorem C10_no_decap_without_pk_witness :
    checkComplete Kconst st_C10 = st_C10 :=
  C10_no_decap_without_pk Kconst st_C10 rfl

/-- C6 counterexample: on a vector file whose first line carries an
unrecognized tag, the harness does not terminate the run: the second
line is still processed (it populates the ciphertext field), the
unknown tag is merely counted as one error, and only the final exit
status (1) reflects it. -/
theorem C6_counterexample :
    (check_mlkem_kat Kconst 0 ["Bogus: 00".toList, "c: 00".toList]).errors = 1
      ∧ (check_mlkem_kat Kconst 0 ["Bogus: 00".toList, "c: 00".toList]).ct
          = some ("00".toList)
      ∧ main_ret (check_mlkem_kat Kconst 0 ["Bogus: 00".toList, "c: 00".toList]).errors = 1 := by
  refine ⟨by decide, by decide, by decide⟩

/-- C6 (amended): a line matching none of the recognized tags makes the
loop call `fail`, which increments the global error count (so the final
exit status is 1) but does not terminate the process: from any loop
state in which no completion condition holds (true initially and after
every iteration), the line's only effect is `error_count + 1`, and the
loop goes on to the next line. -/
theorem C6_unknown_tag_counted_not_fatal (K : KemImpl) (st : KatState) (line : List Char)
    (htag : knownTag line = false)
    (h1 : decapReady st = false) (h2 : encapReady st = false) (h3 : genkeyReady st = false) :
    processLine K st line = { st with errors := st.errors + 1 }
      ∧ main_ret ((processLine K st line).errors - st.errors) = 1 := by
  simp only [knownTag, Bool.or_eq_false_iff] at htag
  obtain ⟨⟨⟨⟨⟨⟨⟨⟨⟨⟨⟨⟨⟨t1, t2⟩, t3⟩, t4⟩, t5⟩, t6⟩, t7⟩, t8⟩, t9⟩, t10⟩, t11⟩, t12⟩, t13⟩,
    t14⟩ := htag
  have hready1 : decapReady { st with errors := st.errors + 1 } = false := h1
  have hready2 : encapReady { st with errors := st.errors + 1 } = false := h2
  have hready3 : genkeyReady { st with errors := st.errors + 1 } = false := h3
  have hstep : processLine K st line
      = checkComplete K { st with errors := st.errors + 1 } := by
    unfold processLine
    rw [t1, t2, t3, t4, t5, t6, t7, t8, t9, t10, t11, t12, t13, t14]
    simp
  have hfix : checkComplete K { st with errors := st.errors + 1 }
      = { st with errors := st.errors + 1 } := by
    unfold checkComplete
    rw [hready1, hready2, hready3]
    simp
  rw [hstep, hfix]
  simp [main_ret]

/-- C6 (amended) witness: the initial state plus one unknown-tag line. -/
theorem C6_unknown_tag_counted_not_fatal_witness :
    processLine Kconst (initState 0) ("Bogus: 00".toList)
        = { initState 0 with errors := (initState 0).errors + 1 }
      ∧ main_ret ((processLine Kconst (initState 0) ("Bogus: 00".toList)).errors
          - (initState 0).errors) = 1 :=
  C6_unknown_tag_counted_not_fatal Kconst (initState 0) ("Bogus: 00".toList)
    (by decide) (by decide) (by decide) (by decide)

/-- C8: when a decapsulation test's computed shared secret differs from
the expected known-answer bytes, the harness reports the mismatch
together with the full hexadecimal dumps of both the computed and the
expected buffer, counts exactly one error, and the record loop
continues with the remaining lines unconditionally (a fold that never
short-circuits), so the mismatch is reflected only in the error count
and the final exit status. -/
theorem C8_mismatch_reported_run_continues (K : KemImpl) (testno algo : Nat)
    (sk_str ct_str ss_str : List Char) (sk ct ss : List Nat)
    (hsk : hex2buffer sk_str = some sk) (hct : hex2buffer ct_str = some ct)
    (hss : hex2buffer ss_str = some ss)
    (hne : (K.decap algo sk ct).take ss.length ≠ ss) :
    one_decap_test K testno algo sk_str ct_str ss_str
        = ⟨1, [Report.mismatch testno ("ss".toList)
            (hexDump ((K.decap algo sk ct).take ss.length)) (hexDump ss)]⟩
      ∧ ∀ (st : KatState) (line : List Char) (rest : List (List Char)),
          List.foldl (processLine K) st (line :: rest)
            = List.foldl (processLine K) (processLine K st line) rest := by
  refine ⟨?_, fun st line rest => rfl⟩
  unfold one_decap_test
  rw [hsk, hct, hss]
  simp [hne]

/-- C8 witness: decapsulating with a KEM whose output is empty against
the expected byte `0x00` mismatches, is reported with both dumps, and
the loop shape continues. -/
theorem C8_mismatch_reported_run_continues_witness :
    one_decap_test Kconst 1 4 ("00".toList) ("00".toList) ("00".toList)
        = ⟨1, [Report.mismatch 1 ("ss".toList)
            (hexDump ((Kconst.decap 4 [0] [0]).take (List.length [0]))) (hexDump [0])]⟩
      ∧ ∀ (st : KatState) (line : List Char) (rest : List (List Char)),
          List.foldl (processLine Kconst) st (line :: rest)
            = List.foldl (processLine Kconst) (processLine Kconst st line) rest :=
  C8_mismatch_reported_run_continues Kconst 1 4 ("00".toList) ("00".toList) ("00".toList)
    [0] [0] [0] (by decide) (by decide) (by decide) (by decide)
